import Mathlib

/-!
# Verification of the giveaway lifecycle of `tony_studio_bot` (`src/bot.py`)

A shallow embedding of the pure core of the bot: the duration parser
(`parse_duration_to_seconds`), the entry-weight calculator
(`calculate_entries_for_member`), the join-button callback
(`JoinButton.callback`), the giveaway start command (`giveaway_start`) and the
giveaway resolution (`end_giveaway`).

Modelling conventions:
- Discord snowflake identifiers (users, roles, channels, messages) are `Nat`.
- A guild member is represented by the list of identifiers of its roles
  (`discord.utils.get(member.roles, id=rid)` becomes `rid ∈ m.roles`).
- Guild member lookup (`guild.get_member`) is a function `Nat → Option Member`.
- Python dicts whose values are positive entry bonuses are association lists
  `List (Nat × Nat)`; the Python `set` of participants is a `List Nat` that the
  code deduplicates with `set(...)` exactly where the Python does.
- Characters are interpreted with ASCII semantics: `str.isdigit`, `\d`, `\s`,
  `str.strip` and `str.lower` are modelled on their ASCII behaviour, which is
  exact for ASCII input.
- `random.choice(pool)` is modelled by an arbitrary stream `picks : Nat → Nat`
  of pick indices, step `k` choosing ticket `pool[picks k % pool.length]`:
  every ticket of the current pool can be the one chosen, and the theorems
  hold for every such stream.
- Asynchronous I/O (fetching the announcement message, publishing edits) is
  modelled by explicit success flags and by a list of emitted `CloseEvent`s.
-/

/-! ## Character helpers (ASCII semantics of `str.strip`, `str.lower`, `\d`, `\s`) -/

/-- ASCII whitespace, the characters matched by the regex class `\s` and
stripped by `str.strip` on ASCII input. -/
def isWsChar (c : Char) : Bool :=
  c = ' ' || c = '\t' || c = '\n' || c = '\x0d' || c = '\x0b' || c = '\x0c'

/-- ASCII decimal digit, the characters matched by `\d` / `str.isdigit` on
ASCII input. -/
def isDigitChar (c : Char) : Bool :=
  '0' ≤ c && c ≤ '9'

/-- `str.lower` on one ASCII character. -/
def toLowerChar (c : Char) : Char :=
  if 'A' ≤ c && c ≤ 'Z' then Char.ofNat (c.toNat + 32) else c

/-- Drop leading whitespace (one side of `str.strip`, and the regex `\s*`). -/
def dropWs (cs : List Char) : List Char :=
  cs.dropWhile isWsChar

/-- `str.strip`: drop whitespace from both ends. -/
def stripList (cs : List Char) : List Char :=
  ((cs.dropWhile isWsChar).reverse.dropWhile isWsChar).reverse

/-- `int` applied to a string of decimal digits. -/
def digitsToNat (ds : List Char) : Nat :=
  ds.foldl (fun a c => a * 10 + (c.toNat - 48)) 0

/-! ## The duration parser (`parse_duration_to_seconds`, bot.py lines 139-152)

The Python function strips and lowercases its input, accepts a bare digit
string as seconds, and otherwise matches the anchored regex

  `^\s*(?:(\d+)\s*d)?\s*(?:(\d+)\s*h)?\s*(?:(\d+)\s*m)?\s*(?:(\d+)\s*s)?\s*$`

summing `86400*d + 3600*h + 60*m + s`, rejecting a zero total.

`tryUnit` is the deterministic reading of one optional group `(\d+)\s*u`: at a
given position the group matches exactly when a maximal nonempty digit run,
optional whitespace and the literal unit letter follow, because a shorter
digit run would have to continue with a digit where `\s*u` is required, and
skipping a matchable group would leave its unit letter unconsumable by any
later alternative.  `seqUnits` chains the four groups with the interleaved
`\s*` and the `$` anchor. -/

/-- One regex group `(?:(\d+)\s*u)?` tried at the current position: returns
the group value and the rest of the input, or `none` when the group cannot
match here. -/
def tryUnit (u : Char) (cs : List Char) : Option (Nat × List Char) :=
  let ds := cs.takeWhile isDigitChar
  let rest := cs.dropWhile isDigitChar
  if ds.isEmpty then none
  else
    match dropWs rest with
    | [] => none
    | c :: rest₂ => if c = u then some (digitsToNat ds, rest₂) else none

/-- The unit letters and their second multipliers, in the fixed order of the
regex. -/
def unitTable : List (Char × Nat) := [('d', 86400), ('h', 3600), ('m', 60), ('s', 1)]

/-- The body of the regex: the optional groups of `units` in order, separated
by `\s*`, finishing with `\s*$`; returns the weighted sum of the matched
groups. -/
def seqUnits : List (Char × Nat) → List Char → Option Nat
  | [], cs => if (dropWs cs).isEmpty then some 0 else none
  | (u, mult) :: rest, cs =>
    match tryUnit u (dropWs cs) with
    | some (n, cs₂) => (seqUnits rest cs₂).map (fun t => n * mult + t)
    | none => seqUnits rest (dropWs cs)

/-- `parse_duration_to_seconds` (bot.py lines 139-152).  The Python strips
then lowercases; lowercasing does not affect whitespace, so the composition
is modelled as strip-then-lower on the character list. -/
def parse_duration_to_seconds (s : String) : Option Nat :=
  let cs := (stripList s.data).map toLowerChar
  if cs.isEmpty then none
  else if cs.all isDigitChar then
    let sec := digitsToNat cs
    if 0 < sec then some sec else none
  else
    match seqUnits unitTable cs with
    | some total => if 0 < total then some total else none
    | none => none

/-! Sanity checks: the examples from the specification, §8 properties 1-2. -/

theorem parse_duration_example_1h30m : parse_duration_to_seconds "1h30m" = some 5400 := by decide

theorem parse_duration_example_90s : parse_duration_to_seconds "90s" = some 90 := by decide

theorem parse_duration_example_3600 : parse_duration_to_seconds "3600" = some 3600 := by decide

theorem parse_duration_example_2d : parse_duration_to_seconds "2d" = some 172800 := by decide

theorem parse_duration_rejects_bad_inputs :
    parse_duration_to_seconds "" = none ∧
    parse_duration_to_seconds "0s" = none ∧
    parse_duration_to_seconds "-5" = none ∧
    parse_duration_to_seconds "30x" = none ∧
    parse_duration_to_seconds "m5" = none := by decide

/-! ## Helper lemmas about whitespace dropping -/

theorem length_dropWhile_le (p : Char → Bool) (cs : List Char) :
    (cs.dropWhile p).length ≤ cs.length := by
  induction cs with
  | nil => simp [List.dropWhile]
  | cons c t ih =>
    by_cases h : p c
    · simp only [List.dropWhile_cons, h, if_true]
      exact Nat.le_succ_of_le ih
    · simp [List.dropWhile_cons, h]

theorem dropWs_dropWs (cs : List Char) : dropWs (dropWs cs) = dropWs cs := by
  induction cs with
  | nil => rfl
  | cons c t ih =>
    by_cases h : isWsChar c
    · simp only [dropWs, List.dropWhile_cons, h, if_true]
      exact ih
    · simp [dropWs, List.dropWhile_cons, h]

/-! ## Reference definitions of the duration grammar (for claim C7)

`parse_duration_spec_strict` follows the claim's words literally: a bare
non-negative integer string (every character a digit), or a composite
expression of optional `d`/`h`/`m`/`s` components in that fixed order, each
component written as `<integer><unit letter>`, case-insensitive, with
whitespace ignored *between components* only; no value exactly when the
string is empty, matches neither grammar, or the total is zero.

`parse_duration_spec_amended` differs only where a counterexample forces it:
surrounding whitespace is trimmed first, and whitespace may also stand
between an integer and its unit letter.  It is phrased spec-style: tokenize
into `<integer> <unit>` components, require the unit letters to be a
subsequence of `d, h, m, s` (the fixed order, each optional, at most once),
and return the weighted sum. -/

/-- The unit letters in their fixed order. -/
def unitChars : List Char := ['d', 'h', 'm', 's']

/-- Seconds denoted by one unit letter. -/
def multOf (u : Char) : Nat :=
  if u = 'd' then 86400
  else if u = 'h' then 3600
  else if u = 'm' then 60
  else if u = 's' then 1
  else 0

/-- The sum in seconds of a list of `<integer> <unit>` components. -/
def wsum (ts : List (Nat × Char)) : Nat :=
  (ts.map (fun t => t.1 * multOf t.2)).sum

/-- Tokenize a character list into `<integer> <unit letter>` components,
ignoring whitespace around components and between an integer and its unit
letter; fails if anything else appears. -/
def tokensWs (cs : List Char) : Option (List (Nat × Char)) :=
  if (dropWs cs).isEmpty then some []
  else if ((dropWs cs).takeWhile isDigitChar).isEmpty then none
  else
    match hr : dropWs ((dropWs cs).dropWhile isDigitChar) with
    | [] => none
    | u :: rest₂ =>
      if u ∈ unitChars then
        (tokensWs rest₂).map (fun ts => (digitsToNat ((dropWs cs).takeWhile isDigitChar), u) :: ts)
      else none
termination_by cs.length
decreasing_by
  have h1 : rest₂.length < (dropWs ((dropWs cs).dropWhile isDigitChar)).length := by
    rw [hr]; simp
  exact lt_of_lt_of_le h1 (le_trans (length_dropWhile_le _ _)
    (le_trans (length_dropWhile_le _ _) (length_dropWhile_le _ _)))

/-- One component `<integer><unit letter>` of the literal reading, nothing in
between. -/
def componentStrict (u : Char) (cs : List Char) : Option (Nat × List Char) :=
  let ds := cs.takeWhile isDigitChar
  let rest := cs.dropWhile isDigitChar
  if ds.isEmpty then none
  else
    match rest with
    | c :: rest₂ => if c = u then some (digitsToNat ds, rest₂) else none
    | [] => none

/-- The optional components in fixed order, whitespace ignored between
components only. -/
def specUnitsStrict : List (Char × Nat) → List Char → Option Nat
  | [], cs => if cs.isEmpty then some 0 else none
  | (u, mult) :: rest, cs =>
    match componentStrict u cs with
    | some (n, cs₂) => (specUnitsStrict rest (dropWs cs₂)).map (fun t => n * mult + t)
    | none => specUnitsStrict rest cs

/-- The claim's reference definition, read literally (whitespace permitted
between components only). -/
def parse_duration_spec_strict (s : String) : Option Nat :=
  let cs := s.data
  if cs ≠ [] ∧ cs.all isDigitChar then
    if 0 < digitsToNat cs then some (digitsToNat cs) else none
  else
    match specUnitsStrict unitTable (cs.map toLowerChar) with
    | some total => if 0 < total then some total else none
    | none => none

/-- The amended reference definition: additionally trims surrounding
whitespace and lets whitespace stand between an integer and its unit
letter. -/
def parse_duration_spec_amended (s : String) : Option Nat :=
  let cs := (stripList s.data).map toLowerChar
  if cs ≠ [] ∧ cs.all isDigitChar then
    if 0 < digitsToNat cs then some (digitsToNat cs) else none
  else
    match tokensWs cs with
    | some ts =>
      if (ts.map Prod.snd).Sublist unitChars ∧ 0 < wsum ts then some (wsum ts) else none
    | none => none

/-! ## Characterisation of one `tokensWs` step -/

theorem tokensWs_of_ws_nil (cs : List Char) (h : dropWs cs = []) : tokensWs cs = some [] := by
  rw [tokensWs.eq_def]
  simp [h]

theorem tokensWs_of_no_digit (cs : List Char) (c : Char) (t : List Char)
    (h : dropWs cs = c :: t) (hc : isDigitChar c = false) : tokensWs cs = none := by
  rw [tokensWs.eq_def]
  simp [h, List.takeWhile_cons, hc]

theorem tokensWs_of_no_unit (cs : List Char) (c : Char) (t : List Char)
    (h : dropWs cs = c :: t) (hc : isDigitChar c = true)
    (hr : dropWs ((dropWs cs).dropWhile isDigitChar) = []) : tokensWs cs = none := by
  rw [tokensWs.eq_def]
  simp only [h, hr, List.isEmpty_cons, List.takeWhile_cons, hc, if_true, Bool.false_eq_true,
    if_false, List.isEmpty_nil, List.isEmpty_eq_true, List.cons_ne_nil]
  split <;> simp_all

theorem tokensWs_of_unit (cs : List Char) (c : Char) (t : List Char) (u₀ : Char)
    (r₂ : List Char) (h : dropWs cs = c :: t) (hc : isDigitChar c = true)
    (hr : dropWs ((dropWs cs).dropWhile isDigitChar) = u₀ :: r₂) (hu : u₀ ∈ unitChars) :
    tokensWs cs
      = (tokensWs r₂).map (fun ts => (digitsToNat ((dropWs cs).takeWhile isDigitChar), u₀) :: ts) := by
  have h1 : (dropWs cs).isEmpty = false := by rw [h]; rfl
  have h2 : ((dropWs cs).takeWhile isDigitChar).isEmpty = false := by
    rw [h]; simp [List.takeWhile_cons, hc]
  rw [tokensWs.eq_def]
  simp only [h1, h2, Bool.false_eq_true, if_false]
  split
  · rename_i heq
    rw [heq] at hr
    simp at hr
  · rename_i u r heq
    rw [heq] at hr
    injection hr with h3 h4
    subst h3; subst h4
    simp [hu]

theorem tokensWs_of_bad_unit (cs : List Char) (c : Char) (t : List Char) (u₀ : Char)
    (r₂ : List Char) (h : dropWs cs = c :: t) (hc : isDigitChar c = true)
    (hr : dropWs ((dropWs cs).dropWhile isDigitChar) = u₀ :: r₂) (hu : u₀ ∉ unitChars) :
    tokensWs cs = none := by
  have h1 : (dropWs cs).isEmpty = false := by rw [h]; rfl
  have h2 : ((dropWs cs).takeWhile isDigitChar).isEmpty = false := by
    rw [h]; simp [List.takeWhile_cons, hc]
  rw [tokensWs.eq_def]
  simp only [h1, h2, Bool.false_eq_true, if_false]
  split
  · rfl
  · rename_i u r heq
    rw [heq] at hr
    injection hr with h3 h4
    subst h3; subst h4
    simp [hu]

theorem tokensWs_dropWs (cs : List Char) : tokensWs (dropWs cs) = tokensWs cs := by
  cases h : dropWs cs with
  | nil =>
    rw [tokensWs_of_ws_nil [] rfl, tokensWs_of_ws_nil cs h]
  | cons c t =>
    have hlh : dropWs (c :: t) = c :: t := by rw [← h]; exact dropWs_dropWs cs
    by_cases hc : isDigitChar c = true
    · cases hr : dropWs ((dropWs cs).dropWhile isDigitChar) with
      | nil =>
        have hr₂ : dropWs ((c :: t).dropWhile isDigitChar) = [] := by rw [← h]; exact hr
        rw [tokensWs_of_no_unit (c :: t) c t hlh hc (by rw [hlh]; exact hr₂),
          tokensWs_of_no_unit cs c t h hc hr]
      | cons u₀ r₂ =>
        have hr₂ : dropWs ((c :: t).dropWhile isDigitChar) = u₀ :: r₂ := by rw [← h]; exact hr
        by_cases hu : u₀ ∈ unitChars
        · rw [tokensWs_of_unit (c :: t) c t u₀ r₂ hlh hc (by rw [hlh]; exact hr₂) hu,
            tokensWs_of_unit cs c t u₀ r₂ h hc hr hu, hlh, h]
        · rw [tokensWs_of_bad_unit (c :: t) c t u₀ r₂ hlh hc (by rw [hlh]; exact hr₂) hu,
            tokensWs_of_bad_unit cs c t u₀ r₂ h hc hr hu]
    · have hc₂ : isDigitChar c = false := by simpa using hc
      rw [tokensWs_of_no_digit (c :: t) c t hlh hc₂, tokensWs_of_no_digit cs c t h hc₂]

/-! ## Equivalence of the regex parser with the component grammar -/

theorem tryUnit_eq (u : Char) (cs : List Char) :
    tryUnit u cs =
      if (cs.takeWhile isDigitChar).isEmpty then none
      else
        match dropWs (cs.dropWhile isDigitChar) with
        | [] => none
        | c :: rest₂ =>
          if c = u then some (digitsToNat (cs.takeWhile isDigitChar), rest₂) else none := rfl

theorem cons_sublist_cons_of_ne {a b : Char} {l r : List Char} (h : a ≠ b) :
    (a :: l).Sublist (b :: r) ↔ (a :: l).Sublist r := by
  constructor
  · intro hs
    cases hs with
    | cons _ hs => exact hs
    | cons₂ => exact absurd rfl h
  · intro hs
    exact hs.cons b

/-- The grammar of the amended claim, restricted to the units of `U`: the
tokens of the input whose unit letters form a subsequence of `U`'s letters,
summed with `U`'s multipliers. -/
def tokensSpec (U : List (Char × Nat)) (cs : List Char) : Option Nat :=
  (tokensWs cs).bind fun ts =>
    if (ts.map Prod.snd).Sublist (U.map Prod.fst) then some (wsum ts) else none

theorem seqUnits_eq_tokensSpec (U : List (Char × Nat)) (cs : List Char)
    (hU : ∀ p ∈ U, p.2 = multOf p.1 ∧ p.1 ∈ unitChars) :
    seqUnits U cs = tokensSpec U cs := by
  induction U generalizing cs with
  | nil =>
    simp only [seqUnits, tokensSpec, List.map_nil]
    cases h : dropWs cs with
    | nil =>
      rw [tokensWs_of_ws_nil cs h]
      simp [wsum]
    | cons c t =>
      have hne : (c :: t).isEmpty = false := rfl
      by_cases hc : isDigitChar c = true
      · cases hr : dropWs ((dropWs cs).dropWhile isDigitChar) with
        | nil =>
          rw [tokensWs_of_no_unit cs c t h hc hr]
          simp [h, hne]
        | cons u₀ r₂ =>
          by_cases hu : u₀ ∈ unitChars
          · rw [tokensWs_of_unit cs c t u₀ r₂ h hc hr hu]
            cases htr : tokensWs r₂ with
            | none => simp [h, hne]
            | some ts' => simp [h, hne, List.sublist_nil]
          · rw [tokensWs_of_bad_unit cs c t u₀ r₂ h hc hr hu]
            simp [h, hne]
      · have hc₂ : isDigitChar c = false := by simpa using hc
        rw [tokensWs_of_no_digit cs c t h hc₂]
        simp [h, hne]
  | cons p U' ih =>
    obtain ⟨u, mult⟩ := p
    have hu_mult : mult = multOf u := (hU (u, mult) (by simp)).1
    have hu_mem : u ∈ unitChars := (hU (u, mult) (by simp)).2
    have hU' : ∀ q ∈ U', q.2 = multOf q.1 ∧ q.1 ∈ unitChars := fun q hq => hU q (by simp [hq])
    simp only [seqUnits]
    cases h : dropWs cs with
    | nil =>
      have ht : tryUnit u ([] : List Char) = none := rfl
      rw [ht, ih [] hU']
      simp only [tokensSpec, tokensWs_of_ws_nil ([] : List Char) rfl, tokensWs_of_ws_nil cs h]
      simp [wsum]
    | cons c t =>
      by_cases hc : isDigitChar c = true
      · have hne : ((c :: t).takeWhile isDigitChar).isEmpty = false := by
          simp [List.takeWhile_cons, hc]
        cases hr : dropWs ((c :: t).dropWhile isDigitChar) with
        | nil =>
          have hr' : dropWs ((dropWs cs).dropWhile isDigitChar) = [] := by rw [h]; exact hr
          have ht : tryUnit u (c :: t) = none := by
            simp only [tryUnit_eq, hne, Bool.false_eq_true, if_false, hr]
          have htk : tokensWs (c :: t) = tokensWs cs := by rw [← h, tokensWs_dropWs]
          rw [ht, ih (c :: t) hU']
          simp only [tokensSpec, htk, tokensWs_of_no_unit cs c t h hc hr', Option.none_bind]
        | cons u₀ r₂ =>
          have hr' : dropWs ((dropWs cs).dropWhile isDigitChar) = u₀ :: r₂ := by
            rw [h]; exact hr
          have hfst : (dropWs cs).takeWhile isDigitChar = (c :: t).takeWhile isDigitChar := by
            rw [h]
          by_cases hequ : u₀ = u
          · subst hequ
            have ht : tryUnit u₀ (c :: t)
                = some (digitsToNat ((c :: t).takeWhile isDigitChar), r₂) := by
              simp only [tryUnit_eq, hne, Bool.false_eq_true, if_false, hr]
              simp
            simp only [ht]
            rw [ih r₂ hU']
            simp only [tokensSpec, tokensWs_of_unit cs c t u₀ r₂ h hc hr' hu_mem, hfst,
              List.map_cons]
            cases htr : tokensWs r₂ with
            | none => simp [Option.none_bind]
            | some ts' =>
              simp only [Option.some_bind, Option.map_some, List.map_cons,
                List.cons_sublist_cons]
              by_cases hsub : (ts'.map Prod.snd).Sublist (U'.map Prod.fst)
              · simp [hsub, wsum, hu_mult]
              · simp [hsub]
          · have ht : tryUnit u (c :: t) = none := by
              simp only [tryUnit_eq, hne, Bool.false_eq_true, if_false, hr, if_neg hequ]
            have htk : tokensWs (c :: t) = tokensWs cs := by rw [← h, tokensWs_dropWs]
            rw [ht, ih (c :: t) hU']
            by_cases hu₀ : u₀ ∈ unitChars
            · simp only [tokensSpec, htk, tokensWs_of_unit cs c t u₀ r₂ h hc hr' hu₀,
                List.map_cons]
              cases htr : tokensWs r₂ with
              | none => rfl
              | some ts' => simp [cons_sublist_cons_of_ne hequ]
            · simp only [tokensSpec, htk, tokensWs_of_bad_unit cs c t u₀ r₂ h hc hr' hu₀,
                Option.none_bind]
      · have hc₂ : isDigitChar c = false := by simpa using hc
        have ht : tryUnit u (c :: t) = none := by
          simp [tryUnit_eq, List.takeWhile_cons, hc₂]
        have htk : tokensWs (c :: t) = tokensWs cs := by rw [← h, tokensWs_dropWs]
        rw [ht, ih (c :: t) hU']
        simp only [tokensSpec, htk, tokensWs_of_no_digit cs c t h hc₂, Option.none_bind]

theorem unitTable_fst : unitTable.map Prod.fst = unitChars := by decide

theorem unitTable_sound : ∀ p ∈ unitTable, p.2 = multOf p.1 ∧ p.1 ∈ unitChars := by decide

/-- C7 (counterexample): the claim's reference grammar, read literally, and
the code disagree on `"1 h"`: the code's regex lets whitespace stand between
an integer and its unit letter and yields 3600 seconds, while the literal
grammar rejects the string. -/
theorem parse_duration_strict_counterexample :
    parse_duration_to_seconds "1 h" = some 3600 ∧
    parse_duration_spec_strict "1 h" = none := by
  constructor
  · decide
  · decide

/-- C7 (amended): `parse_duration_to_seconds` equals the reference
definition amended to trim surrounding whitespace and to allow whitespace
between an integer and its unit letter: a bare digit string is returned as
seconds; a composite of optional `d`/`h`/`m`/`s` components in that fixed
order, case-insensitive and whitespace-insensitive between tokens, yields
the exact sum `86400*d + 3600*h + 60*m + s`; no value exactly when the
string is empty, matches neither grammar, or the total is zero. -/
theorem parse_duration_eq_amended_spec (s : String) :
    parse_duration_to_seconds s = parse_duration_spec_amended s := by
  simp only [parse_duration_to_seconds, parse_duration_spec_amended]
  by_cases he : (stripList s.data).map toLowerChar = []
  · rw [he]
    simp [tokensWs_of_ws_nil ([] : List Char) rfl, wsum]
  · have hiso : ((stripList s.data).map toLowerChar).isEmpty = false := by
      simpa [List.isEmpty_iff] using he
    by_cases hd : ((stripList s.data).map toLowerChar).all isDigitChar
    · simp [hiso, he, hd]
    · rw [seqUnits_eq_tokensSpec unitTable _ unitTable_sound]
      simp only [tokensSpec, unitTable_fst]
      cases htk : tokensWs ((stripList s.data).map toLowerChar) with
      | none => simp [hiso, he, hd]
      | some ts =>
        simp only [hiso, Bool.false_eq_true, if_false, Option.some_bind]
        have hcond : ¬((stripList s.data).map toLowerChar ≠ [] ∧
            ((stripList s.data).map toLowerChar).all isDigitChar = true) := by
          intro hand
          exact hd hand.2
        rw [if_neg hcond, if_neg hd]
        by_cases hsub : (ts.map Prod.snd).Sublist unitChars
        · by_cases hpos : 0 < wsum ts
          · simp [hsub, hpos]
          · simp [hsub, hpos]
        · simp [hsub]

/-! ## Members, roles and the entry-weight calculator (bot.py lines 35-43, 181-194) -/

/-- A guild member, reduced to the identifiers of the roles it holds.
`discord.utils.get(member.roles, id=rid)` is `rid ∈ roles`. -/
structure Member where
  roles : List Nat
deriving DecidableEq

/-- The global extra-entries table `BONUS_ROLES` (bot.py lines 35-43). -/
def BONUS_ROLES : List (Nat × Nat) :=
  [(1411126451163365437, 1),
   (1412210602159378462, 2),
   (1412212184792043530, 3),
   (1412212463176388689, 4),
   (1412212683515887710, 5),
   (1412212741674106952, 6),
   (1412212961338069022, 8)]

/-- The role required to manage giveaways (bot.py line 32). -/
def GIVEAWAY_HOST_ROLE_ID : Nat := 1402405882939048076

/-- `member_has_giveaway_role` (bot.py lines 136-137). -/
def member_has_giveaway_role (m : Member) : Bool :=
  decide (GIVEAWAY_HOST_ROLE_ID ∈ m.roles)

/-- `calculate_entries_for_member` (bot.py lines 181-194): base 1 entry,
plus the bonus of every global `BONUS_ROLES` role the member holds, plus the
bonus of every per-giveaway `gw_extra` role the member holds, clamped to a
minimum of 1. -/
def calculate_entries_for_member (m : Member) (gwExtra : List (Nat × Nat)) : Nat :=
  let entries := 1
  let entries := BONUS_ROLES.foldl (fun acc p => if p.1 ∈ m.roles then acc + p.2 else acc) entries
  let entries := gwExtra.foldl (fun acc p => if p.1 ∈ m.roles then acc + p.2 else acc) entries
  max 1 entries

/-- The total bonus a role table grants to a holder of `roles`: the sum of
the bonuses of the table's roles that appear in `roles`. -/
def bonusSum (tbl : List (Nat × Nat)) (roles : List Nat) : Nat :=
  ((tbl.filter fun p => decide (p.1 ∈ roles)).map Prod.snd).sum

theorem foldl_bonus_eq (tbl : List (Nat × Nat)) (roles : List Nat) (acc : Nat) :
    tbl.foldl (fun acc p => if p.1 ∈ roles then acc + p.2 else acc) acc
      = acc + bonusSum tbl roles := by
  induction tbl generalizing acc with
  | nil => simp [bonusSum]
  | cons p t ih =>
    by_cases hp : p.1 ∈ roles
    · simp [List.foldl_cons, hp, ih, bonusSum, List.filter_cons]
      omega
    · simp [List.foldl_cons, hp, ih, bonusSum, List.filter_cons]

theorem calculate_entries_eq (m : Member) (gwExtra : List (Nat × Nat)) :
    calculate_entries_for_member m gwExtra
      = 1 + bonusSum BONUS_ROLES m.roles + bonusSum gwExtra m.roles := by
  simp only [calculate_entries_for_member, foldl_bonus_eq]
  omega

theorem one_le_calculate_entries (m : Member) (gwExtra : List (Nat × Nat)) :
    1 ≤ calculate_entries_for_member m gwExtra := by
  rw [calculate_entries_eq]
  omega

/-- C4: for every eligible member, the computed entry count is 1 (base) plus
the bonus of every global-table role the member holds plus the bonus of every
per-giveaway-table role the member holds, and is never less than 1; a member
holding the +2 and +3 global bonus roles and nothing else yields exactly 6
entries. -/
theorem entries_base_plus_bonuses :
    (∀ (m : Member) (gwExtra : List (Nat × Nat)),
      calculate_entries_for_member m gwExtra
        = 1 + bonusSum BONUS_ROLES m.roles + bonusSum gwExtra m.roles
      ∧ 1 ≤ calculate_entries_for_member m gwExtra)
    ∧ calculate_entries_for_member ⟨[1412210602159378462, 1412212184792043530]⟩ [] = 6 := by
  refine ⟨fun m gwExtra => ⟨calculate_entries_eq m gwExtra, one_le_calculate_entries m gwExtra⟩, ?_⟩
  decide

/-- C10: a role identifier appearing in both the global table and the
per-giveaway table contributes both bonuses: the per-giveaway bonus `e` is
added on top of the full global sum, which itself contains the global bonus
`g` of that same role. -/
theorem bonus_tables_are_summed (m : Member) (rid g e : Nat)
    (hg : (rid, g) ∈ BONUS_ROLES) (hm : rid ∈ m.roles) :
    calculate_entries_for_member m [(rid, e)]
      = 1 + bonusSum BONUS_ROLES m.roles + e
    ∧ g ≤ bonusSum BONUS_ROLES m.roles := by
  constructor
  · rw [calculate_entries_eq]
    simp [bonusSum, List.filter_cons, hm]
  · have hmem : g ∈ (BONUS_ROLES.filter fun p => decide (p.1 ∈ m.roles)).map Prod.snd := by
      refine List.mem_map.mpr ⟨(rid, g), ?_, rfl⟩
      exact List.mem_filter.mpr ⟨hg, by simpa using hm⟩
    exact List.single_le_sum (fun x _ => Nat.zero_le x) g hmem

/-- C10 witness: the +2 global role also carrying a per-giveaway +5 bonus. -/
theorem bonus_tables_are_summed_witness :
    calculate_entries_for_member ⟨[1412210602159378462]⟩ [(1412210602159378462, 5)]
      = 1 + bonusSum BONUS_ROLES [1412210602159378462] + 5
    ∧ 2 ≤ bonusSum BONUS_ROLES [1412210602159378462] :=
  bonus_tables_are_summed ⟨[1412210602159378462]⟩ 1412210602159378462 2 5
    (by decide) (by decide)

/-! ## The giveaway record (the dict stored in `bot.giveaways`, bot.py 413-424) -/

/-- One giveaway, the dict stored in `bot.giveaways[message_id]`.  The armed
auto-end task is reduced to whether it is armed. -/
structure Giveaway where
  prize : String
  channelId : Nat
  hostId : Option Nat
  requiredRoleId : Option Nat
  extraRoles : List (Nat × Nat)
  winners : Nat
  endsAt : Nat
  participants : List Nat
  ended : Bool
  taskArmed : Bool
deriving DecidableEq

/-! ## The join button (`JoinButton.callback`, bot.py lines 204-243) -/

/-- Outcome of a press of the join button, as reported to the user. -/
inductive JoinResult where
  /-- "This giveaway isn't tracked (maybe the bot restarted)." -/
  | notTracked
  /-- "You're missing the required role to join." -/
  | missingRole
  /-- "You're already entered!" -/
  | alreadyEntered
  /-- "You've been entered into the giveaway!" -/
  | accepted
deriving DecidableEq

/-- The body after the role check: `participants.add(uid)` guarded by the
already-entered check (bot.py lines 221-237). -/
def join_proceed (gw : Giveaway) (uid : Nat) : Option Giveaway × JoinResult :=
  if uid ∈ gw.participants then (some gw, JoinResult.alreadyEntered)
  else (some { gw with participants := gw.participants ++ [uid] }, JoinResult.accepted)

/-- `JoinButton.callback` (bot.py lines 204-243): look the giveaway up in
`bot.giveaways`, check the required role against the guild, then add the
user to the participant set.  The first component is the (possibly updated)
stored giveaway. -/
def join_button_callback (table : Nat → Option Giveaway) (guild : Nat → Option Member)
    (messageId uid : Nat) : Option Giveaway × JoinResult :=
  match table messageId with
  | none => (none, JoinResult.notTracked)
  | some gw =>
    match gw.requiredRoleId with
    | some req =>
      match guild uid with
      | none => (some gw, JoinResult.missingRole)
      | some m =>
        if req ∈ m.roles then join_proceed gw uid
        else (some gw, JoinResult.missingRole)
    | none => join_proceed gw uid

/-- A giveaway that has already ended, with no required role and no
participants. -/
def endedGw : Giveaway :=
  { prize := "prize", channelId := 0, hostId := none, requiredRoleId := none,
    extraRoles := [], winners := 1, endsAt := 0, participants := [],
    ended := true, taskArmed := false }

/-- C2: the claim says a join on a giveaway whose terminal-state flag is set
is rejected with no mutation of the entrant set.  The code has no such
check: `JoinButton.callback` only tests that the giveaway is tracked and the
required role; on a tracked giveaway with `ended = True` the join is
accepted and the user is added to the participant set. -/
theorem join_after_end_accepted :
    endedGw.ended = true ∧
    join_button_callback (fun _ => some endedGw) (fun _ => none) 0 42
      = (some { endedGw with participants := [42] }, JoinResult.accepted) := by
  constructor
  · rfl
  · rfl

/-! ## Giveaway resolution (`end_giveaway`, bot.py lines 441-517) -/

/-- The eligibility filter in `end_giveaway` (bot.py lines 459-466): skip a
participant that no longer resolves to a guild member, skip one lacking the
configured required role, otherwise pair it with its computed entries. -/
def eligible_pair (guild : Nat → Option Member) (gw : Giveaway) (uid : Nat) :
    Option (Nat × Nat) :=
  match guild uid with
  | none => none
  | some m =>
    match gw.requiredRoleId with
    | some req =>
      if req ∈ m.roles then some (uid, calculate_entries_for_member m gw.extraRoles)
      else none
    | none => some (uid, calculate_entries_for_member m gw.extraRoles)

/-- The `eligible_list` built by `end_giveaway`: the deduplicated participant
set (`set(gw.get("participants"))`) filtered and weighted by
`eligible_pair`. -/
def eligibleList (guild : Nat → Option Member) (gw : Giveaway) : List (Nat × Nat) :=
  gw.participants.dedup.filterMap (eligible_pair guild gw)

/-- The weighted pool (bot.py lines 482-484): each eligible identifier
repeated once per entry (`pool.extend([uid] * entries)`). -/
def buildPool (el : List (Nat × Nat)) : List Nat :=
  el.flatMap fun p => List.replicate p.2 p.1

/-- The draw loop (bot.py lines 487-493): `winners_count` times, pick one
ticket of the current pool (`random.choice`, modelled by the pick-index
stream), record it, remove every ticket equal to it, stop early if the pool
empties. -/
def drawLoop (picks : Nat → Nat) : Nat → Nat → List Nat → List Nat
  | 0, _, _ => []
  | _ + 1, _, [] => []
  | k + 1, step, x :: xs =>
    let pick := (x :: xs).getD (picks step % (x :: xs).length) 0
    let pool₂ := (x :: xs).filter fun y => y != pick
    pick :: (if pool₂.isEmpty then [] else drawLoop picks k (step + 1) pool₂)

/-- The externally visible effects of `end_giveaway`: the edit of the
announcement embed (the resolution artifact) and the cancellation of the
armed auto-end task. -/
inductive CloseEvent where
  /-- The embed is edited to "Giveaway Ended! ... No eligible entries." -/
  | editedNoEligible
  /-- The embed is edited to "Giveaway Ended! Winner(s): ...". -/
  | editedWinners (ws : List Nat)
  /-- `gw["task"].cancel()` is invoked. -/
  | timerCancelled
deriving DecidableEq

/-- `end_giveaway` (bot.py lines 441-517).  `fetchOk` tells whether
`channel.fetch_message` succeeds; on failure the code marks the giveaway
ended and returns without publishing.  The no-eligible path edits the embed
and marks the giveaway ended without touching the armed task; the winners
path edits the embed, cancels the task and marks the giveaway ended. -/
def end_giveaway (guild : Nat → Option Member) (fetchOk : Bool) (picks : Nat → Nat)
    (gwOpt : Option Giveaway) : Option Giveaway × List CloseEvent :=
  match gwOpt with
  | none => (none, [])
  | some gw =>
    if gw.ended then (some gw, [])
    else if fetchOk then
      if eligibleList guild gw = [] then
        (some { gw with ended := true }, [CloseEvent.editedNoEligible])
      else
        (some { gw with ended := true, taskArmed := false },
         [CloseEvent.editedWinners
            (drawLoop picks
              (min gw.winners (buildPool (eligibleList guild gw)).dedup.length) 0
              (buildPool (eligibleList guild gw))),
          CloseEvent.timerCancelled])
    else (some { gw with ended := true }, [])

/-! ## Properties of the draw loop -/

theorem pick_mem (x : Nat) (xs : List Nat) (i : Nat) :
    (x :: xs).getD (i % (x :: xs).length) 0 ∈ x :: xs := by
  have hlt : i % (x :: xs).length < (x :: xs).length := Nat.mod_lt _ (by simp)
  rw [List.getD_eq_getElem _ _ hlt]
  exact List.getElem_mem hlt

theorem mem_filter_ne {l : List Nat} {a y : Nat} :
    y ∈ l.filter (fun z => z != a) ↔ y ∈ l ∧ y ≠ a := by
  simp [List.mem_filter]

theorem drawLoop_subset (picks : Nat → Nat) :
    ∀ (k step : Nat) (pool : List Nat), ∀ x ∈ drawLoop picks k step pool, x ∈ pool := by
  intro k
  induction k with
  | zero =>
    intro step pool x hx
    simp [drawLoop] at hx
  | succ k ih =>
    intro step pool x hx
    match pool with
    | [] => simp [drawLoop] at hx
    | y :: ys =>
      simp only [drawLoop] at hx
      rcases List.mem_cons.mp hx with hx | hx
      · rw [hx]; exact pick_mem y ys (picks step)
      · by_cases hemp : ((y :: ys).filter
            (fun z => z != (y :: ys).getD (picks step % (y :: ys).length) 0)).isEmpty
        · rw [if_pos hemp] at hx
          simp at hx
        · rw [if_neg hemp] at hx
          exact (mem_filter_ne.mp (ih (step + 1) _ x hx)).1

theorem drawLoop_nodup (picks : Nat → Nat) :
    ∀ (k step : Nat) (pool : List Nat), (drawLoop picks k step pool).Nodup := by
  intro k
  induction k with
  | zero =>
    intro step pool
    simp [drawLoop]
  | succ k ih =>
    intro step pool
    match pool with
    | [] => simp [drawLoop]
    | y :: ys =>
      simp only [drawLoop]
      refine List.nodup_cons.mpr ⟨?_, ?_⟩
      · by_cases hemp : ((y :: ys).filter
            (fun z => z != (y :: ys).getD (picks step % (y :: ys).length) 0)).isEmpty
        · rw [if_pos hemp]; simp
        · rw [if_neg hemp]
          intro hmem
          exact (mem_filter_ne.mp (drawLoop_subset picks k (step + 1) _ _ hmem)).2 rfl
      · by_cases hemp : ((y :: ys).filter
            (fun z => z != (y :: ys).getD (picks step % (y :: ys).length) 0)).isEmpty
        · rw [if_pos hemp]; simp
        · rw [if_neg hemp]; exact ih (step + 1) _

theorem dedup_length_filter_ne (l : List Nat) (a : Nat) (ha : a ∈ l) :
    (l.filter fun y => y != a).dedup.length = l.dedup.length - 1 := by
  have h1 : (l.filter fun y => y != a).toFinset = l.toFinset.erase a := by
    ext y
    simp only [List.mem_toFinset, mem_filter_ne, Finset.mem_erase]
    exact and_comm
  calc (l.filter fun y => y != a).dedup.length
      = (l.filter fun y => y != a).toFinset.card := (List.card_toFinset _).symm
    _ = (l.toFinset.erase a).card := by rw [h1]
    _ = l.toFinset.card - 1 := Finset.card_erase_of_mem (List.mem_toFinset.mpr ha)
    _ = l.dedup.length - 1 := by rw [List.card_toFinset]

theorem one_le_dedup_length {l : List Nat} (h : l ≠ []) : 1 ≤ l.dedup.length := by
  rcases Nat.eq_zero_or_pos l.dedup.length with h0 | h1
  · exact absurd ((List.dedup_eq_nil l).mp (List.length_eq_zero.mp h0)) h
  · exact h1

theorem drawLoop_length (picks : Nat → Nat) :
    ∀ (k step : Nat) (pool : List Nat), pool ≠ [] → k ≤ pool.dedup.length →
      (drawLoop picks k step pool).length = k := by
  intro k
  induction k with
  | zero =>
    intro step pool _ _
    simp [drawLoop]
  | succ k ih =>
    intro step pool hne hk
    match pool, hne with
    | y :: ys, hne =>
      simp only [drawLoop]
      have hpick : (y :: ys).getD (picks step % (y :: ys).length) 0 ∈ y :: ys :=
        pick_mem y ys (picks step)
      have hD : ((y :: ys).filter
            (fun z => z != (y :: ys).getD (picks step % (y :: ys).length) 0)).dedup.length
          = (y :: ys).dedup.length - 1 :=
        dedup_length_filter_ne _ _ hpick
      by_cases hemp : ((y :: ys).filter
          (fun z => z != (y :: ys).getD (picks step % (y :: ys).length) 0)).isEmpty
      · rw [if_pos hemp]
        have h0 : ((y :: ys).filter
            (fun z => z != (y :: ys).getD (picks step % (y :: ys).length) 0)).dedup.length
            = 0 := by
          rw [List.isEmpty_iff.mp hemp]
          rfl
        have hle : (y :: ys).dedup.length ≤ 1 := by omega
        have : k = 0 := by omega
        rw [this]
        rfl
      · rw [if_neg hemp]
        have hne₂ : (y :: ys).filter
            (fun z => z != (y :: ys).getD (picks step % (y :: ys).length) 0) ≠ [] := by
          intro hnil
          rw [hnil] at hemp
          exact hemp rfl
        have hk₂ : k ≤ ((y :: ys).filter
            (fun z => z != (y :: ys).getD (picks step % (y :: ys).length) 0)).dedup.length := by
          omega
        rw [List.length_cons, ih (step + 1) _ hne₂ hk₂]

/-! ## Properties of the eligibility list and the ticket pool -/

theorem eligible_pair_shape {guild : Nat → Option Member} {gw : Giveaway} {a : Nat}
    {p : Nat × Nat} (h : eligible_pair guild gw a = some p) : p.1 = a ∧ 0 < p.2 := by
  unfold eligible_pair at h
  cases hm : guild a with
  | none => simp [hm] at h
  | some m =>
    simp only [hm] at h
    cases hreq : gw.requiredRoleId with
    | none =>
      simp only [hreq] at h
      cases h
      exact ⟨rfl, one_le_calculate_entries m gw.extraRoles⟩
    | some req =>
      simp only [hreq] at h
      by_cases hrole : req ∈ m.roles
      · rw [if_pos hrole] at h
        cases h
        exact ⟨rfl, one_le_calculate_entries m gw.extraRoles⟩
      · rw [if_neg hrole] at h
        cases h

theorem mapFst_filterMap_eligible (guild : Nat → Option Member) (gw : Giveaway) :
    ∀ l : List Nat,
      (l.filterMap (eligible_pair guild gw)).map Prod.fst
        = l.filter fun a => (eligible_pair guild gw a).isSome := by
  intro l
  induction l with
  | nil => rfl
  | cons a t ih =>
    cases h : eligible_pair guild gw a with
    | none => simp [List.filterMap_cons, h, List.filter_cons, ih]
    | some p =>
      simp [List.filterMap_cons, h, List.filter_cons, ih, (eligible_pair_shape h).1]

theorem eligibleList_fst_nodup (guild : Nat → Option Member) (gw : Giveaway) :
    ((eligibleList guild gw).map Prod.fst).Nodup := by
  rw [eligibleList, mapFst_filterMap_eligible]
  exact (gw.participants.nodup_dedup).filter _

theorem eligibleList_pos (guild : Nat → Option Member) (gw : Giveaway) :
    ∀ p ∈ eligibleList guild gw, 0 < p.2 := by
  intro p hp
  rcases List.mem_filterMap.mp hp with ⟨a, _, ha⟩
  exact (eligible_pair_shape ha).2

theorem mem_buildPool {el : List (Nat × Nat)} {x : Nat} :
    x ∈ buildPool el ↔ ∃ p ∈ el, p.1 = x ∧ p.2 ≠ 0 := by
  simp only [buildPool, List.mem_flatMap, List.mem_replicate]
  constructor
  · rintro ⟨p, hp, hn, hx⟩
    exact ⟨p, hp, hx.symm, hn⟩
  · rintro ⟨p, hp, hx, hn⟩
    exact ⟨p, hp, hn, hx.symm⟩

theorem buildPool_toFinset (el : List (Nat × Nat)) (hpos : ∀ p ∈ el, 0 < p.2) :
    (buildPool el).toFinset = (el.map Prod.fst).toFinset := by
  ext x
  simp only [List.mem_toFinset, mem_buildPool, List.mem_map]
  constructor
  · rintro ⟨p, hp, hx, _⟩
    exact ⟨p, hp, hx⟩
  · rintro ⟨p, hp, hx⟩
    exact ⟨p, hp, hx, Nat.pos_iff_ne_zero.mp (hpos p hp)⟩

theorem buildPool_dedup_length (el : List (Nat × Nat))
    (hnd : (el.map Prod.fst).Nodup) (hpos : ∀ p ∈ el, 0 < p.2) :
    (buildPool el).dedup.length = el.length := by
  calc (buildPool el).dedup.length
      = (buildPool el).toFinset.card := (List.card_toFinset _).symm
    _ = (el.map Prod.fst).toFinset.card := by rw [buildPool_toFinset el hpos]
    _ = (el.map Prod.fst).dedup.length := List.card_toFinset _
    _ = (el.map Prod.fst).length := by rw [List.Nodup.dedup hnd]
    _ = el.length := List.length_map _ _

theorem buildPool_ne_nil {el : List (Nat × Nat)} (hne : el ≠ [])
    (hpos : ∀ p ∈ el, 0 < p.2) : buildPool el ≠ [] := by
  match el, hne with
  | p :: t, _ =>
    intro hnil
    have : p.1 ∈ buildPool (p :: t) :=
      mem_buildPool.mpr ⟨p, List.mem_cons_self p t, rfl,
        Nat.pos_iff_ne_zero.mp (hpos p (List.mem_cons_self p t))⟩
    rw [hnil] at this
    exact (List.not_mem_nil _) this

/-! ## Claims about `end_giveaway` -/

/-- A guild in which every user resolves to a member with no roles. -/
def sampleGuild : Nat → Option Member := fun _ => some ⟨[]⟩

/-- An open giveaway with two participants, no required role, one winner. -/
def openGw : Giveaway :=
  { prize := "prize", channelId := 0, hostId := none, requiredRoleId := none,
    extraRoles := [], winners := 1, endsAt := 0, participants := [1, 2],
    ended := false, taskArmed := true }

/-- An open giveaway with no participants. -/
def emptyGw : Giveaway :=
  { prize := "prize", channelId := 0, hostId := none, requiredRoleId := none,
    extraRoles := [], winners := 3, endsAt := 0, participants := [],
    ended := false, taskArmed := true }

/-- C1: closing a not-yet-ended giveaway with a non-empty eligible list
publishes exactly `min(winners_requested, number of distinct eligible
members)` winners, pairwise distinct at the member level and all eligible —
for every stream of random ticket picks (each step removes every remaining
ticket of the drawn member, so no member repeats).  The eligible list is
keyed by distinct members, so its length is the distinct eligible member
count. -/
theorem close_draw_min_winners_distinct (guild : Nat → Option Member)
    (picks : Nat → Nat) (gw : Giveaway) (h1 : gw.ended = false)
    (h2 : eligibleList guild gw ≠ []) :
    ∃ ws : List Nat,
      (end_giveaway guild true picks (some gw)).2
        = [CloseEvent.editedWinners ws, CloseEvent.timerCancelled]
      ∧ ws.length = min gw.winners (eligibleList guild gw).length
      ∧ ws.Nodup
      ∧ ((eligibleList guild gw).map Prod.fst).Nodup
      ∧ ∀ w ∈ ws, w ∈ (eligibleList guild gw).map Prod.fst := by
  have hpos := eligibleList_pos guild gw
  have hnd := eligibleList_fst_nodup guild gw
  have hpoolne : buildPool (eligibleList guild gw) ≠ [] := buildPool_ne_nil h2 hpos
  have hlen : (buildPool (eligibleList guild gw)).dedup.length
      = (eligibleList guild gw).length := buildPool_dedup_length _ hnd hpos
  refine ⟨drawLoop picks (min gw.winners (buildPool (eligibleList guild gw)).dedup.length) 0
      (buildPool (eligibleList guild gw)), ?_, ?_, ?_, hnd, ?_⟩
  · simp [end_giveaway, h1, h2]
  · rw [drawLoop_length picks _ 0 _ hpoolne (Nat.min_le_right _ _), hlen]
  · exact drawLoop_nodup picks _ 0 _
  · intro w hw
    have hwpool := drawLoop_subset picks _ 0 _ w hw
    rcases mem_buildPool.mp hwpool with ⟨p, hp, hx, _⟩
    exact List.mem_map.mpr ⟨p, hp, hx⟩

/-- C1 witness: two weight-1 participants, one winner requested. -/
theorem close_draw_min_winners_distinct_witness :
    ∃ ws : List Nat,
      (end_giveaway sampleGuild true (fun _ => 0) (some openGw)).2
        = [CloseEvent.editedWinners ws, CloseEvent.timerCancelled]
      ∧ ws.length = min openGw.winners (eligibleList sampleGuild openGw).length
      ∧ ws.Nodup
      ∧ ((eligibleList sampleGuild openGw).map Prod.fst).Nodup
      ∧ ∀ w ∈ ws, w ∈ (eligibleList sampleGuild openGw).map Prod.fst :=
  close_draw_min_winners_distinct sampleGuild (fun _ => 0) openGw rfl (by decide)

/-- C3: a second close of an already-Ended giveaway is a no-op: the stored
state is returned unchanged (so the state stays Ended), no winner draw is
performed and no resolution artifact is published (no events).  The same
guard covers an `end_early` or timer close racing after a completed close,
both of which run `end_giveaway`. -/
theorem close_idempotent (guild : Nat → Option Member) (fetchOk : Bool)
    (picks : Nat → Nat) (gw : Giveaway) (h : gw.ended = true) :
    end_giveaway guild fetchOk picks (some gw) = (some gw, []) := by
  simp [end_giveaway, h]

/-- C3 witness: a close replayed on an ended giveaway. -/
theorem close_idempotent_witness :
    end_giveaway sampleGuild true (fun _ => 0) (some endedGw) = (some endedGw, []) :=
  close_idempotent sampleGuild true (fun _ => 0) endedGw rfl

/-- C5: a participant that no longer resolves to a guild member, or that
lacks the configured required role, is excluded from the eligible list
entirely and contributes zero tickets to the pool, whatever bonus roles it
holds. -/
theorem ineligible_zero_tickets (guild : Nat → Option Member) (gw : Giveaway)
    (uid : Nat)
    (h : guild uid = none
      ∨ ∃ m req, guild uid = some m ∧ gw.requiredRoleId = some req ∧ req ∉ m.roles) :
    uid ∉ (eligibleList guild gw).map Prod.fst
    ∧ uid ∉ buildPool (eligibleList guild gw) := by
  have hpair : eligible_pair guild gw uid = none := by
    rcases h with h | ⟨m, req, hm, hreq, hrole⟩
    · simp [eligible_pair, h]
    · simp [eligible_pair, hm, hreq, hrole]
  have hfst : uid ∉ (eligibleList guild gw).map Prod.fst := by
    intro hmem
    rcases List.mem_map.mp hmem with ⟨p, hp, hx⟩
    rcases List.mem_filterMap.mp hp with ⟨a, _, ha⟩
    have ha1 := (eligible_pair_shape ha).1
    rw [ha1] at hx
    rw [hx] at ha
    rw [hpair] at ha
    cases ha
  refine ⟨hfst, fun hmem => ?_⟩
  rcases mem_buildPool.mp hmem with ⟨p, hp, hx, _⟩
  exact hfst (List.mem_map.mpr ⟨p, hp, hx⟩)

/-- C5 witness: participant 1 of the open giveaway is no longer in the
guild. -/
theorem ineligible_zero_tickets_witness :
    1 ∉ (eligibleList (fun _ => none) openGw).map Prod.fst
    ∧ 1 ∉ buildPool (eligibleList (fun _ => none) openGw) :=
  ineligible_zero_tickets (fun _ => none) openGw 1 (Or.inl rfl)

/-- C6: closing a not-yet-ended giveaway whose eligible list is empty emits
exactly the no-eligible-entries artifact, performs no winner draw, and still
marks the giveaway Ended. -/
theorem close_no_eligible (guild : Nat → Option Member) (picks : Nat → Nat)
    (gw : Giveaway) (h1 : gw.ended = false) (h2 : eligibleList guild gw = []) :
    end_giveaway guild true picks (some gw)
      = (some { gw with ended := true }, [CloseEvent.editedNoEligible]) := by
  simp [end_giveaway, h1, h2]

/-- C6 witness: a giveaway with no participants. -/
theorem close_no_eligible_witness :
    end_giveaway sampleGuild true (fun _ => 0) (some emptyGw)
      = (some { emptyGw with ended := true }, [CloseEvent.editedNoEligible]) :=
  close_no_eligible sampleGuild (fun _ => 0) emptyGw rfl (by decide)

/-! ## Starting a giveaway (`giveaway_start`, bot.py lines 337-439) -/

/-- The in-memory giveaway state of the bot: the `bot.giveaways` table
(message id, giveaway) and the armed auto-end tasks (message ids). -/
structure BotState where
  giveaways : List (Nat × Giveaway)
  timers : List Nat
deriving DecidableEq

/-- Outcome of `/giveaway start`, as surfaced to the operator. -/
inductive StartResult where
  /-- The winner count is outside the declared `Range[int, 1, 10]`; the
  platform rejects the invocation before the handler body runs. -/
  | invalidWinnerCount
  /-- "Use this in a server." -/
  | notInGuild
  /-- "You need the giveaway host role to use this." -/
  | forbidden
  /-- "Invalid duration." -/
  | invalidDuration
  /-- "I couldn't post in that channel." -/
  | publishFailed
  /-- The giveaway was posted with the returned announcement message id. -/
  | started (messageId : Nat)
deriving DecidableEq

/-- `giveaway_start` (bot.py lines 337-439).  `winners` is declared as
`app_commands.Range[int, 1, 10]`, which the command framework enforces
before the handler body runs, so the range check comes first and precedes
every state mutation.  `caller` is `interaction.guild.get_member(...)`;
`publish` is the outcome of `channel.send(embed=...)` (the announcement
message id on success).  The per-giveaway extra-entries table arrives
already parsed by the boundary parser `parse_extra_entries_string`.  On
publish failure the handler returns before `bot.giveaways[...] = {...}` and
before `asyncio.create_task`, so the state is unchanged. -/
def giveaway_start (st : BotState) (now : Nat) (inGuild : Bool)
    (caller : Option Member) (duration : String) (winners : Int) (prize : String)
    (channelId : Nat) (hostId : Option Nat) (requiredRole : Option Nat)
    (gwExtra : List (Nat × Nat)) (publish : Option Nat) : BotState × StartResult :=
  if winners < 1 ∨ 10 < winners then (st, StartResult.invalidWinnerCount)
  else if inGuild = false then (st, StartResult.notInGuild)
  else
    match caller with
    | none => (st, StartResult.forbidden)
    | some member =>
      if member_has_giveaway_role member then
        match parse_duration_to_seconds duration with
        | none => (st, StartResult.invalidDuration)
        | some seconds =>
          match publish with
          | none => (st, StartResult.publishFailed)
          | some mid =>
            ({ giveaways := st.giveaways ++
                [(mid,
                  { prize := prize, channelId := channelId, hostId := hostId,
                    requiredRoleId := requiredRole, extraRoles := gwExtra,
                    winners := winners.toNat, endsAt := now + seconds,
                    participants := [], ended := false, taskArmed := true })],
               timers := st.timers ++ [mid] },
             StartResult.started mid)
      else (st, StartResult.forbidden)

/-- C8: every requested winner count outside `1 ≤ winners ≤ 10` fails with
the invalid-winner-count outcome before any state mutation: the state is
returned unchanged. -/
theorem start_rejects_bad_winner_count (st : BotState) (now : Nat) (inGuild : Bool)
    (caller : Option Member) (duration : String) (winners : Int) (prize : String)
    (channelId : Nat) (hostId : Option Nat) (requiredRole : Option Nat)
    (gwExtra : List (Nat × Nat)) (publish : Option Nat)
    (h : winners < 1 ∨ 10 < winners) :
    giveaway_start st now inGuild caller duration winners prize channelId hostId
      requiredRole gwExtra publish = (st, StartResult.invalidWinnerCount) := by
  simp [giveaway_start, h]

/-- C8 witness: a request for 11 winners. -/
theorem start_rejects_bad_winner_count_witness :
    giveaway_start ⟨[], []⟩ 0 true (some ⟨[GIVEAWAY_HOST_ROLE_ID]⟩) "1h" 11 "prize"
      0 none none [] (some 7) = (⟨[], []⟩, StartResult.invalidWinnerCount) :=
  start_rejects_bad_winner_count ⟨[], []⟩ 0 true (some ⟨[GIVEAWAY_HOST_ROLE_ID]⟩) "1h" 11
    "prize" 0 none none [] (some 7) (by decide)

/-- C9: if publication of the announcement fails during a start that passed
every validation, the operation rolls back entirely: the state (giveaway
table and armed timers) is exactly the state from before the call. -/
theorem start_publish_failed_rolls_back (st : BotState) (now : Nat)
    (caller : Member) (duration : String) (winners : Int) (prize : String)
    (channelId : Nat) (hostId : Option Nat) (requiredRole : Option Nat)
    (gwExtra : List (Nat × Nat))
    (hw : ¬(winners < 1 ∨ 10 < winners))
    (hrole : member_has_giveaway_role caller = true)
    (hdur : ∃ seconds, parse_duration_to_seconds duration = some seconds) :
    giveaway_start st now true (some caller) duration winners prize channelId hostId
      requiredRole gwExtra none = (st, StartResult.publishFailed) := by
  rcases hdur with ⟨seconds, hs⟩
  simp [giveaway_start, hw, hrole, hs]

/-- C9 witness: a host with the giveaway role, duration "1h", delivery
failure. -/
theorem start_publish_failed_rolls_back_witness :
    giveaway_start ⟨[], []⟩ 0 true (some ⟨[GIVEAWAY_HOST_ROLE_ID]⟩) "1h" 2 "prize"
      0 none none [] none = (⟨[], []⟩, StartResult.publishFailed) :=
  start_publish_failed_rolls_back ⟨[], []⟩ 0 ⟨[GIVEAWAY_HOST_ROLE_ID]⟩ "1h" 2 "prize"
    0 none none [] (by decide) (by decide) ⟨3600, by decide⟩
